import Mathlib

/-!
Verification of the `bimm_service` synchronization pipeline
(`src/entities/makeDataLoader.js`, `src/utils/helpers.js`,
`src/db/mongo.js`, `src/schemas/vehicleMake.js`).

The JavaScript code is shallowly embedded: JS objects become Lean
structures, the MongoDB collection becomes a `List VehicleMake`
(documents in natural order), a JS object used as a key → record map
becomes a function `String → Option VehicleMake` built by the same
sequential insertion the source performs, and the asynchronous loops
become folds over an explicit processing order.  Fallible external
calls (HTTP fetches, the bulk write inside the Mongo facade) are
modelled by explicit oracles / success flags.
-/

namespace Bimm

/-- Embeds the `VehicleType` class of `src/models/vehicleMake.js`:
`{ typeId, typeName }`.  Identifiers are kept as opaque strings. -/
structure VehicleType where
  typeId : String
  typeName : String
deriving DecidableEq, Repr

/-- Embeds a `VehicleMake` object.  `vehicleTypes` is an `Option`
because `_saveMakes` deletes the `vehicleTypes` property from a make
object (`delete make?.vehicleTypes`), so a JS make object may lack the
field; `none` models the absent field. -/
structure VehicleMake where
  makeId : String
  makeName : String
  vehicleTypes : Option (List VehicleType)
deriving DecidableEq, Repr

/-- The persisted collection `vehicle_makes`: documents in natural
(insertion) order, as returned by `db.find`. -/
abbrev Store := List VehicleMake

/-- Embeds `arrayToMap(array, "makeId")` from `src/utils/helpers.js`:
builds a key → record map by iterating the array and overwriting the
entry for each element's `makeId` (later elements win). -/
def arrayToMap (array : List VehicleMake) : String → Option VehicleMake :=
  array.foldl (fun map item => fun k => if item.makeId = k then some item else map k)
    (fun _ => none)

/-- Lookup of the (first) document with a given `makeId` in the
collection; under the `makeId`-uniqueness invariant this is the unique
stored record for that id. -/
def findMake (store : Store) (id : String) : Option VehicleMake :=
  store.find? (fun m => m.makeId = id)

/-- The `makeId`s of a store snapshot, in document order. -/
def storeIds (store : Store) : List String :=
  store.map (fun m => m.makeId)

/-- Embeds `MongoDBFacade.deleteOne(collection, {makeId: id})`: MongoDB's
`deleteOne` removes the first document matching the filter. -/
def deleteOne (store : Store) (id : String) : Store :=
  match store with
  | [] => []
  | m :: rest => if m.makeId = id then rest else m :: deleteOne rest id

/-- MongoDB `$set` applied to an existing document: every field present
on the update document is overwritten; the `vehicleTypes` field is left
untouched when the update document lacks it (`none`). -/
def setFields (target doc : VehicleMake) : VehicleMake :=
  { makeId := doc.makeId
    makeName := doc.makeName
    vehicleTypes := match doc.vehicleTypes with
      | some ts => some ts
      | none => target.vehicleTypes }

/-- Embeds one `updateOne {filter: {makeId}, update: {$set: doc}, upsert: true}`
bulk operation: update the first document whose `makeId` matches, or
append the document when none matches. -/
def upsertDoc (store : Store) (doc : VehicleMake) : Store :=
  match store with
  | [] => [doc]
  | m :: rest =>
      if m.makeId = doc.makeId then setFields m doc :: rest
      else m :: upsertDoc rest doc

/-- Embeds `MongoDBFacade.insertOrUpdateMany(collection, "makeId", docs)`
(`src/db/mongo.js`): an ordered bulk of upserts keyed on `makeId`.  The
facade catches any error from `bulkWrite` and returns `[]` instead of
throwing; `ok` is the success of the underlying bulk write (on failure
the write is modelled as not applied). -/
def insertOrUpdateMany (ok : Bool) (store : Store) (docs : List VehicleMake) :
    Store × List VehicleMake :=
  if ok then (docs.foldl upsertDoc store, docs) else (store, [])

/-- The JS truthiness test `o?.vehicleTypes?.length > 0` on an optional
make record. -/
def typesNonempty (o : Option VehicleMake) : Bool :=
  match o with
  | some m =>
      match m.vehicleTypes with
      | some ts => decide (0 < ts.length)
      | none => false
  | none => false

/-- The JS test `make?.vehicleTypes?.length === 0`. -/
def typesEmpty (m : VehicleMake) : Bool :=
  match m.vehicleTypes with
  | some ts => decide (ts.length = 0)
  | none => false

/-- The per-record transformation `_saveMakes` applies before the bulk
write: when the stored record for this `makeId` has a non-empty
`vehicleTypes` and the incoming record's `vehicleTypes` is empty, the
`vehicleTypes` property is deleted from the incoming record
(`delete make?.vehicleTypes`), otherwise the record is written as-is. -/
def mergeDoc (dbMakesMap : String → Option VehicleMake) (make : VehicleMake) : VehicleMake :=
  if typesNonempty (dbMakesMap make.makeId) && typesEmpty make then
    { make with vehicleTypes := none }
  else make

/-- Embeds `MakeDataLoader._saveMakes(remoteMakes)` acting on a store
snapshot.  Returns the updated store and the list `makesToSave` that was
passed to the bulk write — the source's `delete make?.vehicleTypes`
mutates the very objects of the caller's `allMakes` array, so the caller
afterwards holds exactly `makesToSave`; returning it models that
mutation.  `ok` is the success flag of the facade's internal bulk write
(the facade never throws). -/
def _saveMakes (ok : Bool) (remoteMakes : List VehicleMake) (store : Store) :
    Store × List VehicleMake :=
  let dbMakes := store
  let remoteMakesMap := arrayToMap remoteMakes
  let dbMakesMap := arrayToMap dbMakes
  -- delete old makes which are removed in the new version
  let afterDelete := dbMakes.foldl
    (fun st mk => if (remoteMakesMap mk.makeId).isSome then st else deleteOne st mk.makeId)
    store
  -- prevent changing back to the empty vehicleTypes
  let makesToSave := remoteMakes.map (mergeDoc dbMakesMap)
  ((insertOrUpdateMany ok afterDelete makesToSave).1, makesToSave)

/-! ## Bounded-concurrency type loader (`_loadAndSaveVehicleTypes`) -/

/-- The loop state of `_loadAndSaveVehicleTypes`: the mutable
`makesMap` object, the database collection, the sequence of documents
passed to `_saveVehicleTypes` (the per-make upserts, in completion
order), and the `makeId`s for which `readAndSave` was invoked. -/
structure TypeLoadState where
  makesMap : String → Option VehicleMake
  store : Store
  writes : List VehicleMake
  attempted : List String

/-- The JS spread `{...makesMap?.[make.makeId], vehicleTypes}`: start
from the map entry (spreading an absent entry contributes no fields,
modelled by empty-string fields) and overwrite `vehicleTypes` with the
freshly fetched list. -/
def spreadWithTypes (entry : Option VehicleMake) (ts : List VehicleType) : VehicleMake :=
  match entry with
  | some mk => { mk with vehicleTypes := some ts }
  | none => { makeId := "", makeName := "", vehicleTypes := some ts }

/-- One `readAndSave` closure of `_loadAndSaveVehicleTypes`.  The fetch
oracle returns `none` when `_readVehicleTypesFromAPI` throws (network or
parse error); the surrounding `try/catch` then logs and leaves both the
map and the database untouched.  On success the updated make replaces
the map entry and is upserted into the collection
(`_saveVehicleTypes` → `insertOrUpdate` with filter `{makeId}`). -/
def readAndSave (fetch : String → Option (List VehicleType))
    (st : TypeLoadState) (make : VehicleMake) : TypeLoadState :=
  let st := { st with attempted := st.attempted ++ [make.makeId] }
  match fetch make.makeId with
  | some vehicleTypes =>
      let updatedMake := spreadWithTypes (st.makesMap make.makeId) vehicleTypes
      { st with
        makesMap := fun k => if make.makeId = k then some updatedMake else st.makesMap k
        store := upsertDoc st.store updatedMake
        writes := st.writes ++ [updatedMake] }
  | none => st

/-- Embeds `MakeDataLoader._loadAndSaveVehicleTypes(allMakes)` acting on
a store.  `order` is the iteration order the shuffle produced (a
permutation of `allMakes`); the batching (`CONCURRENT_REQUESTS`,
`Promise.all`, sleep) only schedules the same per-item operations and is
modelled separately (`inFlightSizes` below).  With `TEST_REQUESTS = -1`
the `if (i++ === TEST_REQUESTS) break` never fires (`i ≥ 0`), so every
element of the order is processed. -/
def _loadAndSaveVehicleTypes (fetch : String → Option (List VehicleType))
    (allMakes : List VehicleMake) (order : List VehicleMake) (store : Store) :
    TypeLoadState :=
  order.foldl (readAndSave fetch)
    { makesMap := arrayToMap allMakes
      store := store
      writes := []
      attempted := [] }

/-! ## Batching of the type loader loop -/

/-- `const CONCURRENT_REQUESTS = 5` (`src/entities/makeDataLoader.js`). -/
def CONCURRENT_REQUESTS : Nat := 5

/-- The sizes of the groups of simultaneously pending promises in the
`_loadAndSaveVehicleTypes` loop: the loop pushes a promise for each
make, and only when `promises.length > CONCURRENT_REQUESTS` does it
`await Promise.all(promises)` and reset the array; the promises still
pending when the loop ends form the final group (they are in flight
when the function returns). -/
def inFlightSizesAux (pending : Nat) : List VehicleMake → List Nat
  | [] => [pending]
  | _ :: rest =>
      let p := pending + 1
      if CONCURRENT_REQUESTS < p then p :: inFlightSizesAux 0 rest
      else inFlightSizesAux p rest

/-- Group sizes of simultaneously in-flight fetch+persist operations
over one run of the type loader. -/
def inFlightSizes (makes : List VehicleMake) : List Nat :=
  inFlightSizesAux 0 makes

/-- The maximum number of simultaneously in-flight fetch+persist
operations during one run of the type loader. -/
def maxInFlight (makes : List VehicleMake) : Nat :=
  (inFlightSizes makes).foldr max 0

/-! ## Orchestrator (`startLoading`) -/

/-- The external world a run interacts with: the makes-level fetch
(`_loadAllMakes`, throwing a network or parse error modelled as
`.error`), the per-make type fetch (`_readVehicleTypesFromAPI`, `none`
on throw), and the success of the bulk write inside the Mongo facade
(which catches its own errors and never throws). -/
structure RunEnv where
  fetchAllMakes : Except String (List VehicleMake)
  fetchTypes : String → Option (List VehicleType)
  bulkWriteOk : Bool

/-- What one completed run produced: the final store and the `makeId`s
for which a type fetch was attempted. -/
structure RunOutcome where
  store : Store
  typeLoadAttempted : List String
deriving DecidableEq, Repr

/-- Embeds `MakeDataLoader.startLoading()` acting on a store:
`_loadAllMakes` (a throw propagates and aborts the run), then
`_saveMakes` (never throws: the facade swallows persistence errors),
then `_loadAndSaveVehicleTypes` over the (mutated) makes list.
`ordFn` is the shuffle oracle giving the processing order. -/
def startLoading (env : RunEnv) (ordFn : List VehicleMake → List VehicleMake)
    (store : Store) : Except String RunOutcome :=
  match env.fetchAllMakes with
  | .error e => .error e
  | .ok allMakes =>
      let saved := _saveMakes env.bulkWriteOk allMakes store
      let r := _loadAndSaveVehicleTypes env.fetchTypes saved.2 (ordFn saved.2) saved.1
      .ok { store := r.store, typeLoadAttempted := r.attempted }

/-- The store after a run: a throw during the makes-level fetch leaves
the store at its prior snapshot (nothing was written before the throw). -/
def finalStore (env : RunEnv) (ordFn : List VehicleMake → List VehicleMake)
    (store : Store) : Store :=
  match startLoading env ordFn store with
  | .ok r => r.store
  | .error _ => store

/-! ## Markup transformer (`_extractVehicleTypeObjects`) -/

/-- One `VehicleTypesForMakeIds` record of the parsed XML. -/
structure VehicleTypeRec where
  VehicleTypeId : String
  VehicleTypeName : String
deriving DecidableEq, Repr

/-- The shape `xml2js` (with `explicitArray: false`) gives the
`Results.VehicleTypesForMakeIds` node: absent when there is no child,
a bare record for a single child, an array for several children. -/
inductive TypesChild where
  | absent : TypesChild
  | single : VehicleTypeRec → TypesChild
  | many : List VehicleTypeRec → TypesChild
deriving DecidableEq, Repr

/-- The `Results` node of the type-list response. -/
structure TypeResults where
  VehicleTypesForMakeIds : TypesChild
deriving DecidableEq, Repr

/-- The `Response` node of the type-list response. -/
structure TypeResponse where
  Count : Nat
  Results : Option TypeResults
deriving DecidableEq, Repr

/-- A parsed type-list document (`jsObject` in the source). -/
structure TypeListDoc where
  Response : Option TypeResponse
deriving DecidableEq, Repr

/-- The node `jsObject?.Response?.Results?.VehicleTypesForMakeIds`. -/
def typesChildOf (doc : TypeListDoc) : TypesChild :=
  match doc.Response with
  | none => TypesChild.absent
  | some resp =>
      match resp.Results with
      | none => TypesChild.absent
      | some rs => rs.VehicleTypesForMakeIds

/-- Embeds `MakeDataLoader._extractVehicleTypeObjects(jsObject)`.
`.ok none` models the JS function returning `undefined` (the optional
chain `...?.map` short-circuiting on an absent node); `.error` models
the `TypeError` thrown when `Count > 1` but the node is a bare object
(calling `.map` on a non-array).  `VehicleType(undefined, undefined)`
hits the constructor defaults, yielding `VehicleType("", "")`. -/
def _extractVehicleTypeObjects (doc : TypeListDoc) : Except String (Option (List VehicleType)) :=
  match doc.Response with
  | none =>
      -- `undefined == 0` and `undefined == 1` are false; `...?.map` on
      -- the absent node yields `undefined`.
      .ok none
  | some resp =>
      if resp.Count = 0 then .ok (some [])
      else if resp.Count = 1 then
        match typesChildOf doc with
        | TypesChild.single r => .ok (some [⟨r.VehicleTypeId, r.VehicleTypeName⟩])
        | TypesChild.many _ =>
            -- `array?.VehicleTypeId` is `undefined`: constructor defaults
            .ok (some [⟨"", ""⟩])
        | TypesChild.absent => .ok (some [⟨"", ""⟩])
      else
        match typesChildOf doc with
        | TypesChild.many rs =>
            .ok (some (rs.map (fun r => ⟨r.VehicleTypeId, r.VehicleTypeName⟩)))
        | TypesChild.single _ =>
            -- `.map` called on a bare object throws a TypeError
            .error "TypeError"
        | TypesChild.absent => .ok none

/-! ## Read path (`getAllMakes`) -/

/-- A document as stored in MongoDB: the inserted payload plus the
internal `_id` the driver adds (`none` once stripped). -/
structure DbDoc where
  _id : Option Nat
  makeId : String
  makeName : String
  vehicleTypes : Option (List VehicleType)
deriving DecidableEq, Repr

/-- Embeds `MakeDataLoader.getAllMakes()` applied to the documents
`db.find` returns: `data?.map(d => delete d?._id && d)` deletes the
`_id` property of each document (`delete` evaluates to `true`, so `&& d`
returns the mutated document) and keeps every other field. -/
def getAllMakes (data : List DbDoc) : List DbDoc :=
  data.map (fun d => { d with _id := none })

/-! ## Shuffle (`src/utils/helpers.js`) -/

/-- Swap of two positions of an array, as the destructuring assignment
`[array[i], array[j]] = [array[j], array[i]]` performs (both indices are
in range whenever the source executes it). -/
def swapL (l : List α) (i j : Nat) : List α :=
  match l.get? i, l.get? j with
  | some a, some b => (l.set i b).set j a
  | _, _ => l

/-- The body of `shuffle`'s while loop, counting `currentIndex` down:
with `currentIndex = n + 1` the loop picks
`randomIndex = Math.floor(Math.random() * currentIndex)` — a uniform
value in `[0, n]`, modelled by the oracle `rand` reduced mod
`currentIndex` — decrements `currentIndex`, and swaps positions
`currentIndex` and `randomIndex`. -/
def shuffleAux (rand : Nat → Nat) : Nat → List α → List α
  | 0, l => l
  | n + 1, l => shuffleAux rand n (swapL l n (rand (n + 1) % (n + 1)))

/-- Embeds `shuffle(array)` from `src/utils/helpers.js` (Fisher–Yates
with a randomness oracle). -/
def shuffle (rand : Nat → Nat) (l : List α) : List α :=
  shuffleAux rand l.length l

/-! ## Lemmas about the map and store primitives -/

theorem arrayToMap_go (l : List VehicleMake) :
    ∀ (acc : String → Option VehicleMake) (k : String),
      l.foldl (fun map item => fun k' => if item.makeId = k' then some item else map k') acc k
        = match l.reverse.find? (fun m => m.makeId = k) with
          | some m => some m
          | none => acc k := by
  induction l with
  | nil => intro acc k; rfl
  | cons m rest ih =>
      intro acc k
      simp only [List.foldl_cons, List.reverse_cons, List.find?_append]
      rw [ih]
      cases hfind : rest.reverse.find? (fun m' => m'.makeId = k) with
      | some m' => simp [Option.or]
      | none =>
          by_cases h : m.makeId = k
          · simp [Option.or, List.find?, h]
          · simp [Option.or, List.find?, h]

theorem arrayToMap_eq_find (l : List VehicleMake) (k : String) :
    arrayToMap l k = l.reverse.find? (fun m => m.makeId = k) := by
  unfold arrayToMap
  rw [arrayToMap_go]
  cases l.reverse.find? (fun m => m.makeId = k) <;> rfl

theorem arrayToMap_isSome_iff (l : List VehicleMake) (k : String) :
    (arrayToMap l k).isSome = true ↔ k ∈ l.map (fun m => m.makeId) := by
  rw [arrayToMap_eq_find, List.find?_isSome]
  constructor
  · rintro ⟨m, hm, hp⟩
    exact List.mem_map.mpr ⟨m, List.mem_reverse.mp hm, by simpa using hp⟩
  · intro hk
    obtain ⟨m, hm, hid⟩ := List.mem_map.mp hk
    exact ⟨m, List.mem_reverse.mpr hm, by simpa using hid⟩

theorem arrayToMap_entry_makeId {l : List VehicleMake} {k : String} {e : VehicleMake}
    (h : arrayToMap l k = some e) : e.makeId = k := by
  rw [arrayToMap_eq_find] at h
  simpa using List.find?_some h

theorem arrayToMap_entry_mem {l : List VehicleMake} {k : String} {e : VehicleMake}
    (h : arrayToMap l k = some e) : e ∈ l := by
  rw [arrayToMap_eq_find] at h
  exact List.mem_reverse.mp (List.mem_of_find?_eq_some h)

theorem eq_of_makeId_eq {l : List VehicleMake} {a b : VehicleMake}
    (h : (l.map (fun m => m.makeId)).Nodup)
    (ha : a ∈ l) (hb : b ∈ l) (hid : a.makeId = b.makeId) : a = b := by
  have hpair : l.Pairwise (fun x y => x.makeId ≠ y.makeId) := by
    have := (List.pairwise_map (l := l)).mp h
    exact this
  by_contra hne
  exact (hpair.forall (fun x y hxy => (Ne.symm hxy)) ha hb hne) hid

theorem findMake_entry_makeId {st : Store} {id : String} {e : VehicleMake}
    (h : findMake st id = some e) : e.makeId = id := by
  simpa using List.find?_some h

theorem findMake_entry_mem {st : Store} {id : String} {e : VehicleMake}
    (h : findMake st id = some e) : e ∈ st :=
  List.mem_of_find?_eq_some h

theorem arrayToMap_eq_findMake {l : List VehicleMake}
    (h : (l.map (fun m => m.makeId)).Nodup) (k : String) :
    arrayToMap l k = findMake l k := by
  cases hf : findMake l k with
  | none =>
      rw [arrayToMap_eq_find]
      unfold findMake at hf
      rw [List.find?_eq_none] at hf
      rw [List.find?_eq_none]
      intro x hx
      exact hf x (List.mem_reverse.mp hx)
  | some m =>
      cases ha : arrayToMap l k with
      | none =>
          exfalso
          have h1 : (arrayToMap l k).isSome = true := by
            rw [arrayToMap_isSome_iff]
            exact List.mem_map.mpr ⟨m, findMake_entry_mem hf, findMake_entry_makeId hf⟩
          rw [ha] at h1
          exact Bool.false_ne_true h1
      | some m' =>
          have := eq_of_makeId_eq h (arrayToMap_entry_mem ha) (findMake_entry_mem hf)
            (by rw [arrayToMap_entry_makeId ha, findMake_entry_makeId hf])
          rw [this]

theorem findMake_eq_none_iff (st : Store) (id : String) :
    findMake st id = none ↔ id ∉ st.map (fun m => m.makeId) := by
  unfold findMake
  rw [List.find?_eq_none]
  simp only [List.mem_map]
  constructor
  · rintro h ⟨m, hm, hid⟩
    exact h m hm (by simpa using hid)
  · intro h m hm
    intro hp
    exact h ⟨m, hm, by simpa using hp⟩

theorem setFields_makeId (m doc : VehicleMake) : (setFields m doc).makeId = doc.makeId := rfl

theorem findMake_upsert_self (st : Store) (doc : VehicleMake) :
    findMake (upsertDoc st doc) doc.makeId =
      some (match findMake st doc.makeId with
            | some m => setFields m doc
            | none => doc) := by
  induction st with
  | nil => simp [upsertDoc, findMake]
  | cons m rest ih =>
      by_cases h : m.makeId = doc.makeId
      · simp [upsertDoc, h, findMake, setFields]
      · simp only [upsertDoc, if_neg h]
        unfold findMake
        rw [List.find?_cons_of_neg _ (by simpa using h),
          List.find?_cons_of_neg _ (by simpa using h)]
        exact ih

theorem findMake_upsert_other {doc : VehicleMake} {id : String}
    (h : doc.makeId ≠ id) (st : Store) :
    findMake (upsertDoc st doc) id = findMake st id := by
  induction st with
  | nil => simp [upsertDoc, findMake, h]
  | cons m rest ih =>
      by_cases hm : m.makeId = doc.makeId
      · unfold upsertDoc findMake
        rw [if_pos hm]
        have h1 : ¬((setFields m doc).makeId = id) := by rw [setFields_makeId]; exact h
        have h2 : ¬(m.makeId = id) := by rw [hm]; exact h
        rw [List.find?_cons_of_neg _ (by simpa using h1),
          List.find?_cons_of_neg _ (by simpa using h2)]
      · unfold upsertDoc findMake
        rw [if_neg hm]
        by_cases hmid : m.makeId = id
        · rw [List.find?_cons_of_pos _ (by simpa using hmid),
            List.find?_cons_of_pos _ (by simpa using hmid)]
        · rw [List.find?_cons_of_neg _ (by simpa using hmid),
            List.find?_cons_of_neg _ (by simpa using hmid)]
          exact ih

theorem findMake_deleteOne_other {idd id : String} (h : idd ≠ id) (st : Store) :
    findMake (deleteOne st idd) id = findMake st id := by
  induction st with
  | nil => rfl
  | cons m rest ih =>
      by_cases hm : m.makeId = idd
      · unfold deleteOne findMake
        rw [if_pos hm]
        have : ¬(m.makeId = id) := by rw [hm]; exact h
        rw [List.find?_cons_of_neg _ (by simpa using this)]
      · unfold deleteOne findMake
        rw [if_neg hm]
        by_cases hmid : m.makeId = id
        · rw [List.find?_cons_of_pos _ (by simpa using hmid),
            List.find?_cons_of_pos _ (by simpa using hmid)]
        · rw [List.find?_cons_of_neg _ (by simpa using hmid),
            List.find?_cons_of_neg _ (by simpa using hmid)]
          exact ih

theorem storeIds_upsert_mem (st : Store) (doc : VehicleMake) (id : String) :
    id ∈ storeIds (upsertDoc st doc) ↔ id ∈ storeIds st ∨ id = doc.makeId := by
  induction st with
  | nil => simp [upsertDoc, storeIds]
  | cons m rest ih =>
      by_cases h : m.makeId = doc.makeId
      · unfold storeIds
        rw [show upsertDoc (m :: rest) doc = setFields m doc :: rest by simp [upsertDoc, h]]
        simp only [List.map_cons, List.mem_cons, setFields_makeId, h]
        tauto
      · simp only [upsertDoc, if_neg h, storeIds, List.map_cons, List.mem_cons]
        unfold storeIds at ih
        rw [ih]
        tauto

theorem deleteOne_sublist (st : Store) (id : String) : List.Sublist (deleteOne st id) st := by
  induction st with
  | nil => simp [deleteOne]
  | cons m rest ih =>
      by_cases h : m.makeId = id
      · rw [show deleteOne (m :: rest) id = rest by simp [deleteOne, h]]
        exact List.sublist_cons_self m rest
      · rw [show deleteOne (m :: rest) id = m :: deleteOne rest id by simp [deleteOne, h]]
        exact List.Sublist.cons₂ m ih

theorem nodup_storeIds_deleteOne {st : Store} (h : (storeIds st).Nodup) (id : String) :
    (storeIds (deleteOne st id)).Nodup :=
  List.Nodup.sublist (List.Sublist.map _ (deleteOne_sublist st id)) h

theorem nodup_storeIds_upsert {st : Store} (h : (storeIds st).Nodup) (doc : VehicleMake) :
    (storeIds (upsertDoc st doc)).Nodup := by
  induction st with
  | nil => simp [upsertDoc, storeIds]
  | cons m rest ih =>
      unfold storeIds at h
      rw [List.map_cons, List.nodup_cons] at h
      by_cases hm : m.makeId = doc.makeId
      · unfold storeIds
        simp only [upsertDoc, if_pos hm, List.map_cons, List.nodup_cons, setFields_makeId]
        rw [← hm]
        exact h
      · unfold storeIds
        simp only [upsertDoc, if_neg hm, List.map_cons, List.nodup_cons]
        refine ⟨?_, ih h.2⟩
        intro hmem
        rcases (storeIds_upsert_mem rest doc m.makeId).mp hmem with h1 | h1
        · exact h.1 h1
        · exact hm h1

/-- Number of stored documents with the given `makeId`. -/
def countId (st : Store) (id : String) : Nat := (storeIds st).count id

theorem countId_deleteOne_self (st : Store) (id : String) :
    countId (deleteOne st id) id = countId st id - 1 := by
  induction st with
  | nil => rfl
  | cons m rest ih =>
      unfold deleteOne
      by_cases h : m.makeId = id
      · rw [if_pos h]
        simp [countId, storeIds, List.count_cons, h]
      · rw [if_neg h]
        have h1 : countId (m :: deleteOne rest id) id = countId (deleteOne rest id) id := by
          simp [countId, storeIds, List.count_cons, h]
        have h2 : countId (m :: rest) id = countId rest id := by
          simp [countId, storeIds, List.count_cons, h]
        rw [h1, h2, ih]

theorem countId_deleteOne_other {idd id : String} (h : idd ≠ id) (st : Store) :
    countId (deleteOne st idd) id = countId st id := by
  induction st with
  | nil => rfl
  | cons m rest ih =>
      unfold deleteOne
      by_cases hm : m.makeId = idd
      · rw [if_pos hm]
        have hmne : ¬(m.makeId = id) := fun he => h (hm ▸ he)
        simp [countId, storeIds, List.count_cons, hmne]
      · rw [if_neg hm]
        unfold countId storeIds at ih ⊢
        simp only [List.map_cons, List.count_cons]
        rw [ih]

theorem countId_eq_zero_iff (st : Store) (id : String) :
    countId st id = 0 ↔ id ∉ storeIds st := by
  unfold countId
  exact List.count_eq_zero

/-- The step function of the deletion loop in `_saveMakes`. -/
def deleteStep (rMap : String → Option VehicleMake) (st : Store) (mk : VehicleMake) : Store :=
  if (rMap mk.makeId).isSome then st else deleteOne st mk.makeId

theorem deleteFold_find_isSome {rMap : String → Option VehicleMake} {id : String}
    (hid : (rMap id).isSome = true) :
    ∀ (l : List VehicleMake) (st : Store),
      findMake (l.foldl (deleteStep rMap) st) id = findMake st id := by
  intro l
  induction l with
  | nil => intro st; rfl
  | cons mk rest ih =>
      intro st
      rw [List.foldl_cons]
      by_cases h : (rMap mk.makeId).isSome = true
      · rw [show deleteStep rMap st mk = st from if_pos h]
        exact ih st
      · rw [show deleteStep rMap st mk = deleteOne st mk.makeId from if_neg h]
        have hne : mk.makeId ≠ id := by
          intro heq
          rw [heq] at h
          exact h hid
        rw [ih, findMake_deleteOne_other hne]

theorem deleteFold_count_none {rMap : String → Option VehicleMake} {id : String}
    (hid : (rMap id).isSome = false) :
    ∀ (l : List VehicleMake) (st : Store),
      countId (l.foldl (deleteStep rMap) st) id
        = countId st id - l.countP (fun mk => mk.makeId = id) := by
  intro l
  induction l with
  | nil => intro st; rfl
  | cons mk rest ih =>
      intro st
      rw [List.foldl_cons, List.countP_cons]
      by_cases h : (rMap mk.makeId).isSome = true
      · have hne : ¬(mk.makeId = id) := by
          intro heq
          rw [heq, hid] at h
          exact Bool.false_ne_true h
        rw [show deleteStep rMap st mk = st from if_pos h, ih]
        simp [hne]
      · rw [show deleteStep rMap st mk = deleteOne st mk.makeId from if_neg h, ih]
        by_cases hmk : mk.makeId = id
        · subst hmk
          rw [countId_deleteOne_self]
          simp only [decide_eq_true_eq, if_true]
          omega
        · rw [countId_deleteOne_other hmk]
          simp [hmk]

theorem deleteFold_nodup {rMap : String → Option VehicleMake} :
    ∀ (l : List VehicleMake) {st : Store}, (storeIds st).Nodup →
      (storeIds (l.foldl (deleteStep rMap) st)).Nodup := by
  intro l
  induction l with
  | nil => intro st h; exact h
  | cons mk rest ih =>
      intro st h
      rw [List.foldl_cons]
      refine ih ?_
      unfold deleteStep
      by_cases hc : (rMap mk.makeId).isSome = true
      · rw [if_pos hc]; exact h
      · rw [if_neg hc]; exact nodup_storeIds_deleteOne h mk.makeId

theorem insertMany_find_none {docs : List VehicleMake} {id : String}
    (h : ∀ d ∈ docs, d.makeId ≠ id) (st : Store) :
    findMake (docs.foldl upsertDoc st) id = findMake st id := by
  induction docs generalizing st with
  | nil => rfl
  | cons d rest ih =>
      rw [List.foldl_cons, ih (fun d' hd' => h d' (List.mem_cons_of_mem d hd')),
        findMake_upsert_other (h d (List.mem_cons_self d rest)) st]

theorem insertMany_mem_iff (docs : List VehicleMake) (st : Store) (id : String) :
    id ∈ storeIds (docs.foldl upsertDoc st)
      ↔ id ∈ storeIds st ∨ id ∈ docs.map (fun d => d.makeId) := by
  induction docs generalizing st with
  | nil => simp
  | cons d rest ih =>
      rw [List.foldl_cons, ih, storeIds_upsert_mem]
      simp only [List.map_cons, List.mem_cons]
      tauto

theorem insertMany_nodup {docs : List VehicleMake} {st : Store}
    (h : (storeIds st).Nodup) : (storeIds (docs.foldl upsertDoc st)).Nodup := by
  induction docs generalizing st with
  | nil => exact h
  | cons d rest ih => exact ih (nodup_storeIds_upsert h d)

theorem insertMany_find_split (st : Store) (d₁ d₂ : List VehicleMake) (doc : VehicleMake)
    (h1 : ∀ d ∈ d₁, d.makeId ≠ doc.makeId) (h2 : ∀ d ∈ d₂, d.makeId ≠ doc.makeId) :
    findMake ((d₁ ++ doc :: d₂).foldl upsertDoc st) doc.makeId =
      some (match findMake st doc.makeId with
            | some m => setFields m doc
            | none => doc) := by
  rw [List.foldl_append, List.foldl_cons]
  rw [insertMany_find_none h2, findMake_upsert_self, insertMany_find_none h1]

/-! ## Characterization of `_saveMakes` -/

/-- The merge `_saveMakes` applies to one record, expressed against the
stored record for its `makeId` rather than against the whole map. -/
def mergeWith (old : Option VehicleMake) (mk : VehicleMake) : VehicleMake :=
  if typesNonempty old && typesEmpty mk then { mk with vehicleTypes := none } else mk

/-- The value the shell-persistence phase leaves for a remote record,
as a function of the previously stored record for its `makeId`. -/
def shellVal (old : Option VehicleMake) (mk : VehicleMake) : VehicleMake :=
  match old with
  | some dbm => setFields dbm (mergeWith old mk)
  | none => mergeWith old mk

theorem mergeDoc_eq_mergeWith (f : String → Option VehicleMake) (mk : VehicleMake) :
    mergeDoc f mk = mergeWith (f mk.makeId) mk := rfl

theorem mergeWith_makeId (old : Option VehicleMake) (mk : VehicleMake) :
    (mergeWith old mk).makeId = mk.makeId := by
  unfold mergeWith
  by_cases h : (typesNonempty old && typesEmpty mk) = true
  · rw [if_pos h]
  · rw [if_neg h]

theorem _saveMakes_snd (ok : Bool) (remote : List VehicleMake) (store : Store) :
    (_saveMakes ok remote store).2 = remote.map (mergeDoc (arrayToMap store)) := rfl

theorem _saveMakes_fst_true (remote : List VehicleMake) (store : Store) :
    (_saveMakes true remote store).1
      = (remote.map (mergeDoc (arrayToMap store))).foldl upsertDoc
          (store.foldl (deleteStep (arrayToMap remote)) store) := rfl

theorem _saveMakes_fst_false (remote : List VehicleMake) (store : Store) :
    (_saveMakes false remote store).1
      = store.foldl (deleteStep (arrayToMap remote)) store := rfl

theorem countId_eq_countP (st : Store) (id : String) :
    countId st id = st.countP (fun mk => mk.makeId = id) := by
  induction st with
  | nil => rfl
  | cons m rest ih =>
      unfold countId storeIds at ih ⊢
      rw [List.map_cons, List.count_cons, List.countP_cons, ih]
      by_cases h : m.makeId = id
      · simp [h]
      · simp [h]

theorem saveMakes_find_not_mem {remote : List VehicleMake} {id : String}
    (h : id ∉ remote.map (fun m => m.makeId)) (store : Store) :
    findMake (_saveMakes true remote store).1 id = none := by
  rw [_saveMakes_fst_true]
  have hdocs : ∀ d ∈ remote.map (mergeDoc (arrayToMap store)), d.makeId ≠ id := by
    intro d hd heq
    obtain ⟨mk, hmk, hdef⟩ := List.mem_map.mp hd
    refine h (List.mem_map.mpr ⟨mk, hmk, ?_⟩)
    rw [← hdef] at heq
    rw [mergeDoc_eq_mergeWith, mergeWith_makeId] at heq
    exact heq
  rw [insertMany_find_none hdocs]
  have hnot : (arrayToMap remote id).isSome = false := by
    cases hi : (arrayToMap remote id).isSome with
    | false => rfl
    | true => exact absurd ((arrayToMap_isSome_iff remote id).mp hi) h
  have hcount := deleteFold_count_none hnot store store
  rw [countId_eq_countP store id] at hcount
  rw [Nat.sub_self] at hcount
  rw [findMake_eq_none_iff]
  intro hmem
  have := (countId_eq_zero_iff _ id).mp hcount
  exact this hmem

theorem saveMakes_find_mem {remote : List VehicleMake} {store : Store} {mk : VehicleMake}
    (hs : (storeIds store).Nodup) (hr : (remote.map (fun m => m.makeId)).Nodup)
    (hmem : mk ∈ remote) :
    findMake (_saveMakes true remote store).1 mk.makeId
      = some (shellVal (findMake store mk.makeId) mk) := by
  rw [_saveMakes_fst_true]
  obtain ⟨r₁, r₂, hsplit⟩ := List.append_of_mem hmem
  have hmid : (remote.map (fun m => m.makeId)).Nodup := hr
  rw [hsplit, List.map_append, List.map_cons] at hmid
  rw [List.nodup_middle] at hmid
  rw [List.nodup_cons, List.mem_append] at hmid
  have hno1 : ∀ m' ∈ r₁, m'.makeId ≠ mk.makeId := by
    intro m' hm' heq
    exact hmid.1 (Or.inl (List.mem_map.mpr ⟨m', hm', heq⟩))
  have hno2 : ∀ m' ∈ r₂, m'.makeId ≠ mk.makeId := by
    intro m' hm' heq
    exact hmid.1 (Or.inr (List.mem_map.mpr ⟨m', hm', heq⟩))
  have hsome : (arrayToMap remote mk.makeId).isSome = true :=
    (arrayToMap_isSome_iff remote mk.makeId).mpr (List.mem_map.mpr ⟨mk, hmem, rfl⟩)
  have hdel : findMake (store.foldl (deleteStep (arrayToMap remote)) store) mk.makeId
      = findMake store mk.makeId := deleteFold_find_isSome hsome store store
  have hmaps : remote.map (mergeDoc (arrayToMap store))
      = r₁.map (mergeDoc (arrayToMap store))
        ++ mergeDoc (arrayToMap store) mk :: r₂.map (mergeDoc (arrayToMap store)) := by
    rw [hsplit, List.map_append, List.map_cons]
  rw [hmaps]
  have hdocid : (mergeDoc (arrayToMap store) mk).makeId = mk.makeId := by
    rw [mergeDoc_eq_mergeWith, mergeWith_makeId]
  have h1 : ∀ d ∈ r₁.map (mergeDoc (arrayToMap store)),
      d.makeId ≠ (mergeDoc (arrayToMap store) mk).makeId := by
    intro d hd
    obtain ⟨m', hm', hdef⟩ := List.mem_map.mp hd
    rw [← hdef, mergeDoc_eq_mergeWith, mergeWith_makeId, hdocid]
    exact hno1 m' hm'
  have h2 : ∀ d ∈ r₂.map (mergeDoc (arrayToMap store)),
      d.makeId ≠ (mergeDoc (arrayToMap store) mk).makeId := by
    intro d hd
    obtain ⟨m', hm', hdef⟩ := List.mem_map.mp hd
    rw [← hdef, mergeDoc_eq_mergeWith, mergeWith_makeId, hdocid]
    exact hno2 m' hm'
  have hsplitfind := insertMany_find_split
    (store.foldl (deleteStep (arrayToMap remote)) store)
    (r₁.map (mergeDoc (arrayToMap store)))
    (r₂.map (mergeDoc (arrayToMap store)))
    (mergeDoc (arrayToMap store) mk) h1 h2
  rw [hdocid] at hsplitfind
  rw [hsplitfind, hdel]
  rw [mergeDoc_eq_mergeWith, arrayToMap_eq_findMake hs]
  unfold shellVal
  cases hold : findMake store mk.makeId with
  | none => rfl
  | some dbm => rfl

theorem saveMakes_nodup {store : Store} (hs : (storeIds store).Nodup)
    (ok : Bool) (remote : List VehicleMake) :
    (storeIds (_saveMakes ok remote store).1).Nodup := by
  cases ok with
  | true =>
      rw [_saveMakes_fst_true]
      exact insertMany_nodup (deleteFold_nodup store hs)
  | false =>
      rw [_saveMakes_fst_false]
      exact deleteFold_nodup store hs

/-! ## Characterization of the type-loader loop -/

/-- The map holds a well-keyed entry for every `makeId` occurring in `l`. -/
def goodFor (st : TypeLoadState) (l : List VehicleMake) : Prop :=
  ∀ m' ∈ l, ∃ e, st.makesMap m'.makeId = some e ∧ e.makeId = m'.makeId

theorem goodFor_append {st : TypeLoadState} {l₁ l₂ : List VehicleMake}
    (h : goodFor st (l₁ ++ l₂)) : goodFor st l₁ ∧ goodFor st l₂ := by
  constructor
  · intro m' hm'
    exact h m' (List.mem_append.mpr (Or.inl hm'))
  · intro m' hm'
    exact h m' (List.mem_append.mpr (Or.inr hm'))

theorem readAndSave_good {fetch : String → Option (List VehicleType)}
    {st : TypeLoadState} {mk : VehicleMake} {l : List VehicleMake}
    (hmk : ∃ e, st.makesMap mk.makeId = some e ∧ e.makeId = mk.makeId)
    (hl : goodFor st l) : goodFor (readAndSave fetch st mk) l := by
  intro m' hm'
  obtain ⟨e0, he0, hid0⟩ := hmk
  obtain ⟨e, he, hid⟩ := hl m' hm'
  unfold readAndSave
  cases hf : fetch mk.makeId with
  | none => exact ⟨e, he, hid⟩
  | some ts =>
      simp only
      by_cases hk : mk.makeId = m'.makeId
      · refine ⟨spreadWithTypes (st.makesMap mk.makeId) ts, by rw [if_pos hk], ?_⟩
        rw [he0]
        unfold spreadWithTypes
        rw [hid0, hk]
      · exact ⟨e, by rw [if_neg hk]; exact he, hid⟩

theorem loop_good {fetch : String → Option (List VehicleType)} :
    ∀ (order : List VehicleMake) (st : TypeLoadState) (l : List VehicleMake),
      goodFor st (order ++ l) →
      goodFor (order.foldl (readAndSave fetch) st) l := by
  intro order
  induction order with
  | nil =>
      intro st l h
      exact (goodFor_append h).2
  | cons mk rest ih =>
      intro st l h
      rw [List.foldl_cons]
      refine ih _ l ?_
      have hmk : ∃ e, st.makesMap mk.makeId = some e ∧ e.makeId = mk.makeId :=
        h mk (List.mem_append.mpr (Or.inl (List.mem_cons_self mk rest)))
      refine readAndSave_good hmk ?_
      intro m' hm'
      rcases List.mem_append.mp hm' with hh | hh
      · exact h m' (List.mem_append.mpr (Or.inl (List.mem_cons_of_mem mk hh)))
      · exact h m' (List.mem_append.mpr (Or.inr hh))

theorem loop_attempted {fetch : String → Option (List VehicleType)} :
    ∀ (order : List VehicleMake) (st : TypeLoadState),
      (order.foldl (readAndSave fetch) st).attempted
        = st.attempted ++ order.map (fun m => m.makeId) := by
  intro order
  induction order with
  | nil => intro st; simp
  | cons mk rest ih =>
      intro st
      rw [List.foldl_cons, ih]
      have hstep : (readAndSave fetch st mk).attempted = st.attempted ++ [mk.makeId] := by
        unfold readAndSave
        cases fetch mk.makeId <;> rfl
      rw [hstep, List.map_cons, List.append_assoc]
      rfl

theorem loop_untouched {fetch : String → Option (List VehicleType)} {id : String} :
    ∀ (order : List VehicleMake) (st : TypeLoadState),
      (∀ mk ∈ order, mk.makeId ≠ id) →
      goodFor st order →
      findMake (order.foldl (readAndSave fetch) st).store id = findMake st.store id
        ∧ (order.foldl (readAndSave fetch) st).makesMap id = st.makesMap id := by
  intro order
  induction order with
  | nil => intro st _ _; exact ⟨rfl, rfl⟩
  | cons mk rest ih =>
      intro st hne hg
      rw [List.foldl_cons]
      have hmk : ∃ e, st.makesMap mk.makeId = some e ∧ e.makeId = mk.makeId :=
        hg mk (List.mem_cons_self mk rest)
      have hrest : goodFor (readAndSave fetch st mk) rest :=
        readAndSave_good hmk (fun m' hm' => hg m' (List.mem_cons_of_mem mk hm'))
      have hner : ∀ m' ∈ rest, m'.makeId ≠ id :=
        fun m' hm' => hne m' (List.mem_cons_of_mem mk hm')
      obtain ⟨hfind, hmap⟩ := ih (readAndSave fetch st mk) hner hrest
      rw [hfind, hmap]
      obtain ⟨e, he, hid⟩ := hmk
      have hmkne : mk.makeId ≠ id := hne mk (List.mem_cons_self mk rest)
      unfold readAndSave
      cases hf : fetch mk.makeId with
      | none => exact ⟨rfl, rfl⟩
      | some ts =>
          simp only
          constructor
          · have hwid : (spreadWithTypes (st.makesMap mk.makeId) ts).makeId ≠ id := by
              rw [he]
              unfold spreadWithTypes
              rw [hid]
              exact hmkne
            exact findMake_upsert_other hwid st.store
          · rw [if_neg hmkne]

theorem loop_nodup {fetch : String → Option (List VehicleType)} :
    ∀ (order : List VehicleMake) (st : TypeLoadState),
      (storeIds st.store).Nodup →
      (storeIds (order.foldl (readAndSave fetch) st).store).Nodup := by
  intro order
  induction order with
  | nil => intro st h; exact h
  | cons mk rest ih =>
      intro st h
      rw [List.foldl_cons]
      refine ih _ ?_
      unfold readAndSave
      cases fetch mk.makeId with
      | none => exact h
      | some ts => exact nodup_storeIds_upsert h _

theorem loop_find_single_none {fetch : String → Option (List VehicleType)}
    (mk : VehicleMake) (o₁ o₂ : List VehicleMake) (st : TypeLoadState)
    (h1 : ∀ m' ∈ o₁, m'.makeId ≠ mk.makeId) (h2 : ∀ m' ∈ o₂, m'.makeId ≠ mk.makeId)
    (hgood : goodFor st (o₁ ++ mk :: o₂))
    (hf : fetch mk.makeId = none) :
    findMake ((o₁ ++ mk :: o₂).foldl (readAndSave fetch) st).store mk.makeId
        = findMake st.store mk.makeId
      ∧ ((o₁ ++ mk :: o₂).foldl (readAndSave fetch) st).makesMap mk.makeId
        = st.makesMap mk.makeId := by
  rw [List.foldl_append, List.foldl_cons]
  have hg1 : goodFor st o₁ := (goodFor_append hgood).1
  have hgm : goodFor st (mk :: o₂) := (goodFor_append hgood).2
  obtain ⟨hfind1, hmap1⟩ := loop_untouched o₁ st h1 hg1
  have hgm' : goodFor (o₁.foldl (readAndSave fetch) st) (mk :: o₂) :=
    loop_good o₁ st (mk :: o₂) hgood
  set st₁ := o₁.foldl (readAndSave fetch) st with hst₁
  have hstep : readAndSave fetch st₁ mk
      = { st₁ with attempted := st₁.attempted ++ [mk.makeId] } := by
    unfold readAndSave
    rw [hf]
  rw [hstep]
  have hg2 : goodFor ({ st₁ with attempted := st₁.attempted ++ [mk.makeId] }) o₂ := by
    intro m' hm'
    exact hgm' m' (List.mem_cons_of_mem mk hm')
  obtain ⟨hfind2, hmap2⟩ := loop_untouched o₂ _ h2 hg2
  rw [hfind2, hmap2]
  exact ⟨hfind1, hmap1⟩

theorem loop_find_single_some {fetch : String → Option (List VehicleType)}
    (mk : VehicleMake) (ts : List VehicleType) (o₁ o₂ : List VehicleMake)
    (st : TypeLoadState)
    (h1 : ∀ m' ∈ o₁, m'.makeId ≠ mk.makeId) (h2 : ∀ m' ∈ o₂, m'.makeId ≠ mk.makeId)
    (hgood : goodFor st (o₁ ++ mk :: o₂))
    (hf : fetch mk.makeId = some ts) :
    findMake ((o₁ ++ mk :: o₂).foldl (readAndSave fetch) st).store mk.makeId
        = some (match findMake st.store mk.makeId with
                | some m => setFields m (spreadWithTypes (st.makesMap mk.makeId) ts)
                | none => spreadWithTypes (st.makesMap mk.makeId) ts)
      ∧ ((o₁ ++ mk :: o₂).foldl (readAndSave fetch) st).makesMap mk.makeId
        = some (spreadWithTypes (st.makesMap mk.makeId) ts) := by
  rw [List.foldl_append, List.foldl_cons]
  have hg1 : goodFor st o₁ := (goodFor_append hgood).1
  obtain ⟨hfind1, hmap1⟩ := loop_untouched o₁ st h1 hg1
  have hgm' : goodFor (o₁.foldl (readAndSave fetch) st) (mk :: o₂) :=
    loop_good o₁ st (mk :: o₂) hgood
  set st₁ := o₁.foldl (readAndSave fetch) st with hst₁
  obtain ⟨e, he, hid⟩ := hgm' mk (List.mem_cons_self mk o₂)
  have hwid : (spreadWithTypes (st₁.makesMap mk.makeId) ts).makeId = mk.makeId := by
    rw [he]
    unfold spreadWithTypes
    exact hid
  have hstep : readAndSave fetch st₁ mk
      = { st₁ with
            attempted := st₁.attempted ++ [mk.makeId]
            makesMap := fun k => if mk.makeId = k
              then some (spreadWithTypes (st₁.makesMap mk.makeId) ts)
              else st₁.makesMap k
            store := upsertDoc st₁.store (spreadWithTypes (st₁.makesMap mk.makeId) ts)
            writes := st₁.writes ++ [spreadWithTypes (st₁.makesMap mk.makeId) ts] } := by
    unfold readAndSave
    rw [hf]
  rw [hstep]
  set written := spreadWithTypes (st₁.makesMap mk.makeId) ts with hwr
  set st₂ : TypeLoadState :=
    { st₁ with
        attempted := st₁.attempted ++ [mk.makeId]
        makesMap := fun k => if mk.makeId = k then some written else st₁.makesMap k
        store := upsertDoc st₁.store written
        writes := st₁.writes ++ [written] } with hst₂
  have hg2 : goodFor st₂ o₂ := by
    intro m' hm'
    obtain ⟨e', he', hid'⟩ := hgm' m' (List.mem_cons_of_mem mk hm')
    by_cases hk : mk.makeId = m'.makeId
    · refine ⟨written, ?_, ?_⟩
      · show (if mk.makeId = m'.makeId then some written else st₁.makesMap m'.makeId)
          = some written
        rw [if_pos hk]
      · rw [hwid, hk]
    · refine ⟨e', ?_, hid'⟩
      show (if mk.makeId = m'.makeId then some written else st₁.makesMap m'.makeId)
        = some e'
      rw [if_neg hk]
      exact he'
  obtain ⟨hfind2, hmap2⟩ := loop_untouched o₂ st₂ h2 hg2
  rw [hfind2, hmap2]
  constructor
  · show findMake (upsertDoc st₁.store written) mk.makeId = _
    have hup := findMake_upsert_self st₁.store written
    rw [hwid] at hup
    rw [hup, hfind1, hwr, hmap1]
  · show (if mk.makeId = mk.makeId then some written else st₁.makesMap mk.makeId) = _
    rw [if_pos rfl, hwr, hmap1]

/-! ## Permutation property of the Fisher–Yates shuffle -/

theorem cons_set_perm {α : Type} :
    ∀ (t : List α) (m : Nat) (x b : α), t.get? m = some b →
      (b :: t.set m x).Perm (x :: t) := by
  intro t
  induction t with
  | nil => intro m x b h; cases h
  | cons y tl ih =>
      intro m x b h
      cases m with
      | zero =>
          have hb : b = y := by
            simp only [List.get?] at h
            exact (Option.some_inj.mp h).symm
          subst hb
          rw [show (b :: tl).set 0 x = x :: tl from rfl]
          exact List.Perm.swap x b tl
      | succ k =>
          have hk : tl.get? k = some b := by
            simpa [List.get?] using h
          rw [show (y :: tl).set (k + 1) x = y :: tl.set k x from rfl]
          refine List.Perm.trans (List.Perm.swap y b (tl.set k x)) ?_
          refine List.Perm.trans (List.Perm.cons y (ih k x b hk)) ?_
          exact List.Perm.swap x y tl

theorem set_set_perm {α : Type} :
    ∀ (l : List α) (i j : Nat) (a b : α), l.get? i = some a → l.get? j = some b →
      ((l.set i b).set j a).Perm l := by
  intro l
  induction l with
  | nil => intro i j a b h; cases h
  | cons x t ih =>
      intro i j a b hi hj
      cases i with
      | zero =>
          have ha : a = x := by
            simp only [List.get?] at hi
            exact (Option.some_inj.mp hi).symm
          subst ha
          cases j with
          | zero =>
              have hb : b = a := by
                simp only [List.get?] at hj
                exact (Option.some_inj.mp hj).symm
              subst hb
              exact List.Perm.refl _
          | succ k =>
              have hk : t.get? k = some b := by simpa [List.get?] using hj
              rw [show (a :: t).set 0 b = b :: t from rfl,
                show (b :: t).set (k + 1) a = b :: t.set k a from rfl]
              exact cons_set_perm t k a b hk
      | succ k =>
          have hk : t.get? k = some a := by simpa [List.get?] using hi
          cases j with
          | zero =>
              have hb : b = x := by
                simp only [List.get?] at hj
                exact (Option.some_inj.mp hj).symm
              subst hb
              rw [show (b :: t).set (k + 1) b = b :: t.set k b from rfl,
                show (b :: t.set k b).set 0 a = a :: t.set k b from rfl]
              exact cons_set_perm t k b a hk
          | succ k' =>
              have hk' : t.get? k' = some b := by simpa [List.get?] using hj
              rw [show (x :: t).set (k + 1) b = x :: t.set k b from rfl,
                show (x :: t.set k b).set (k' + 1) a = x :: (t.set k b).set k' a from rfl]
              exact List.Perm.cons x (ih k k' a b hk hk')

theorem swapL_perm {α : Type} (l : List α) (i j : Nat) : (swapL l i j).Perm l := by
  unfold swapL
  cases hi : l.get? i with
  | none => exact List.Perm.refl l
  | some a =>
      cases hj : l.get? j with
      | none => exact List.Perm.refl l
      | some b => exact set_set_perm l i j a b hi hj

theorem shuffleAux_perm {α : Type} (rand : Nat → Nat) :
    ∀ (n : Nat) (l : List α), (shuffleAux rand n l).Perm l := by
  intro n
  induction n with
  | zero => intro l; exact List.Perm.refl l
  | succ k ih =>
      intro l
      exact (ih (swapL l k (rand (k + 1) % (k + 1)))).trans (swapL_perm l k _)

/-- Claim C10: the shuffle helper returns a permutation of its input —
for every randomness oracle, the shuffled list contains exactly the same
elements with the same multiplicities as the input, so the randomized
processing order of the type loader still covers every fetched make
exactly once per cycle. -/
theorem shuffle_perm {α : Type} (rand : Nat → Nat) (l : List α) :
    (shuffle rand l).Perm l :=
  shuffleAux_perm rand l.length l

/-- Claim C4 (evaluation at the failing input): with 6 makes in a cycle,
the loop of `_loadAndSaveVehicleTypes` pushes a sixth fetch+persist
promise before it first awaits (`promises.length > CONCURRENT_REQUESTS`
with the length already 6), so 6 operations are simultaneously in
flight, exceeding the intended cap `CONCURRENT_REQUESTS = 5`. -/
theorem maxInFlight_exceeds_cap :
    maxInFlight (List.replicate 6 { makeId := "1", makeName := "m", vehicleTypes := some [] })
        = 6
      ∧ CONCURRENT_REQUESTS < 6 := by
  constructor
  · rfl
  · decide

/-- Claim C9: every record returned by `getAllMakes` has the internal
storage identifier `_id` removed, and all other fields are returned
unchanged from the stored document at the same position. -/
theorem getAllMakes_strips_id (data : List DbDoc) (i : Nat) (d : DbDoc)
    (h : data[i]? = some d) :
    (getAllMakes data)[i]?
      = some { _id := none
               makeId := d.makeId
               makeName := d.makeName
               vehicleTypes := d.vehicleTypes } := by
  unfold getAllMakes
  rw [List.getElem?_map, h]
  rfl

/-- A sample stored document used to instantiate the read-path theorem. -/
def dbDocW : DbDoc :=
  { _id := some 7, makeId := "440", makeName := "ASTON MARTIN",
    vehicleTypes := some [⟨"2", "Passenger Car"⟩] }

theorem getAllMakes_strips_id_witness :
    (getAllMakes [dbDocW])[0]?
      = some { _id := none, makeId := "440", makeName := "ASTON MARTIN",
               vehicleTypes := some [⟨"2", "Passenger Car"⟩] } :=
  getAllMakes_strips_id [dbDocW] 0 dbDocW rfl

/-- Claim C3: for every parsed type-list document, extraction returns
the empty sequence when the reported `Count` is 0; when `Count` is 1 it
wraps the single non-list nested record into a one-element sequence; and
when `Count` is greater than 1 it maps each element of the nested list
in source order. -/
theorem extractVehicleTypes_policy (doc : TypeListDoc) (resp : TypeResponse)
    (h : doc.Response = some resp) :
    (resp.Count = 0 → _extractVehicleTypeObjects doc = .ok (some []))
    ∧ (∀ r : VehicleTypeRec, resp.Count = 1 →
        resp.Results = some ⟨TypesChild.single r⟩ →
        _extractVehicleTypeObjects doc
          = .ok (some [⟨r.VehicleTypeId, r.VehicleTypeName⟩]))
    ∧ (∀ rs : List VehicleTypeRec, 1 < resp.Count →
        resp.Results = some ⟨TypesChild.many rs⟩ →
        _extractVehicleTypeObjects doc
          = .ok (some (rs.map (fun r => ⟨r.VehicleTypeId, r.VehicleTypeName⟩)))) := by
  refine ⟨?_, ?_, ?_⟩
  · intro h0
    unfold _extractVehicleTypeObjects
    simp [h, h0]
  · intro r h1 hres
    unfold _extractVehicleTypeObjects typesChildOf
    simp [h, h1, hres]
  · intro rs hgt hres
    unfold _extractVehicleTypeObjects typesChildOf
    have hne0 : ¬(resp.Count = 0) := by omega
    have hne1 : ¬(resp.Count = 1) := by omega
    simp [h, hne0, hne1, hres]

theorem extractVehicleTypes_policy_witness :
    _extractVehicleTypeObjects ⟨some ⟨0, some ⟨TypesChild.absent⟩⟩⟩ = .ok (some [])
    ∧ _extractVehicleTypeObjects
        ⟨some ⟨1, some ⟨TypesChild.single ⟨"2", "Passenger Car"⟩⟩⟩⟩
        = .ok (some [⟨"2", "Passenger Car"⟩])
    ∧ _extractVehicleTypeObjects
        ⟨some ⟨3, some ⟨TypesChild.many [⟨"1", "a"⟩, ⟨"2", "b"⟩, ⟨"3", "c"⟩]⟩⟩⟩
        = .ok (some [⟨"1", "a"⟩, ⟨"2", "b"⟩, ⟨"3", "c"⟩]) := by
  refine ⟨?_, ?_, ?_⟩
  · exact (extractVehicleTypes_policy ⟨some ⟨0, some ⟨TypesChild.absent⟩⟩⟩
      ⟨0, some ⟨TypesChild.absent⟩⟩ rfl).1 rfl
  · exact (extractVehicleTypes_policy
      ⟨some ⟨1, some ⟨TypesChild.single ⟨"2", "Passenger Car"⟩⟩⟩⟩
      ⟨1, some ⟨TypesChild.single ⟨"2", "Passenger Car"⟩⟩⟩ rfl).2.1
      ⟨"2", "Passenger Car"⟩ rfl rfl
  · exact (extractVehicleTypes_policy
      ⟨some ⟨3, some ⟨TypesChild.many [⟨"1", "a"⟩, ⟨"2", "b"⟩, ⟨"3", "c"⟩]⟩⟩⟩
      ⟨3, some ⟨TypesChild.many [⟨"1", "a"⟩, ⟨"2", "b"⟩, ⟨"3", "c"⟩]⟩⟩ rfl).2.2
      [⟨"1", "a"⟩, ⟨"2", "b"⟩, ⟨"3", "c"⟩] (by decide) rfl

/-- Claim C1: if the stored record for a remote make's `makeId` has a
non-empty `vehicleTypes` and the remote record's `vehicleTypes` is
empty, then `_saveMakes` omits the `vehicleTypes` field from the write
(the written document is the record with the field deleted), so the
stored `vehicleTypes` remain unchanged after reconciliation. -/
theorem saveMakes_nonregression (remote store : List VehicleMake) (mk dbm : VehicleMake)
    (ts : List VehicleType)
    (hr : (remote.map (fun m => m.makeId)).Nodup)
    (hs : (storeIds store).Nodup)
    (hmem : mk ∈ remote)
    (hdb : findMake store mk.makeId = some dbm)
    (hts : dbm.vehicleTypes = some ts) (hne : ts ≠ [])
    (hempty : mk.vehicleTypes = some []) :
    ({ mk with vehicleTypes := none } ∈ (_saveMakes true remote store).2)
    ∧ ((findMake (_saveMakes true remote store).1 mk.makeId).bind
        (fun r => r.vehicleTypes)) = some ts := by
  have hlen : 0 < ts.length := List.length_pos.mpr hne
  have hcond : (typesNonempty (some dbm) && typesEmpty mk) = true := by
    unfold typesNonempty typesEmpty
    simp [hts, hempty, hlen]
  have hcondmap : (typesNonempty (arrayToMap store mk.makeId) && typesEmpty mk) = true := by
    rw [arrayToMap_eq_findMake hs, hdb]
    exact hcond
  have hdoc : mergeDoc (arrayToMap store) mk = { mk with vehicleTypes := none } := by
    rw [mergeDoc_eq_mergeWith]
    unfold mergeWith
    rw [if_pos hcondmap]
  constructor
  · rw [_saveMakes_snd]
    exact List.mem_map.mpr ⟨mk, hmem, hdoc⟩
  · rw [saveMakes_find_mem hs hr hmem, hdb]
    unfold shellVal
    have hmw : mergeWith (some dbm) mk = { mk with vehicleTypes := none } := by
      unfold mergeWith
      rw [if_pos hcond]
    rw [hmw]
    unfold setFields
    simp [hts]

theorem saveMakes_nonregression_witness :
    ((⟨"A", "Audi", none⟩ : VehicleMake)
        ∈ (_saveMakes true [⟨"A", "Audi", some []⟩]
            [⟨"A", "Audi", some [⟨"T1", "car"⟩]⟩]).2)
    ∧ ((findMake (_saveMakes true [⟨"A", "Audi", some []⟩]
          [⟨"A", "Audi", some [⟨"T1", "car"⟩]⟩]).1 "A").bind
        (fun r => r.vehicleTypes)) = some [⟨"T1", "car"⟩] :=
  saveMakes_nonregression [⟨"A", "Audi", some []⟩]
    [⟨"A", "Audi", some [⟨"T1", "car"⟩]⟩]
    ⟨"A", "Audi", some []⟩ ⟨"A", "Audi", some [⟨"T1", "car"⟩]⟩ [⟨"T1", "car"⟩]
    (by decide) (by decide) (by decide) (by decide) rfl (by decide) rfl

/-- Claim C2: the reconciliation of `_saveMakes` deletes exactly those
`makeId`s present in the store snapshot but absent from the remote
list, and every `makeId` present in both is retained in the store. -/
theorem saveMakes_deletion (remote store : List VehicleMake) (id : String) :
    ((id ∈ storeIds store ∧ id ∉ remote.map (fun m => m.makeId)) →
      id ∉ storeIds (_saveMakes true remote store).1)
    ∧ ((id ∈ storeIds store ∧ id ∈ remote.map (fun m => m.makeId)) →
      id ∈ storeIds (_saveMakes true remote store).1) := by
  constructor
  · rintro ⟨hin, hout⟩
    have hnone := saveMakes_find_not_mem hout store
    rw [findMake_eq_none_iff] at hnone
    exact hnone
  · rintro ⟨hin, hmem⟩
    rw [_saveMakes_fst_true]
    rw [insertMany_mem_iff]
    right
    obtain ⟨mk, hmk, heq⟩ := List.mem_map.mp hmem
    refine List.mem_map.mpr ⟨mergeDoc (arrayToMap store) mk, List.mem_map.mpr ⟨mk, hmk, rfl⟩, ?_⟩
    rw [mergeDoc_eq_mergeWith, mergeWith_makeId]
    exact heq

theorem saveMakes_deletion_witness :
    "D" ∉ storeIds (_saveMakes true [⟨"A", "a", some []⟩]
        [⟨"A", "a", some []⟩, ⟨"D", "d", some []⟩]).1
    ∧ "A" ∈ storeIds (_saveMakes true [⟨"A", "a", some []⟩]
        [⟨"A", "a", some []⟩, ⟨"D", "d", some []⟩]).1 :=
  ⟨(saveMakes_deletion [⟨"A", "a", some []⟩]
      [⟨"A", "a", some []⟩, ⟨"D", "d", some []⟩] "D").1 ⟨by decide, by decide⟩,
   (saveMakes_deletion [⟨"A", "a", some []⟩]
      [⟨"A", "a", some []⟩, ⟨"D", "d", some []⟩] "A").2 ⟨by decide, by decide⟩⟩

/-- The whole run preserves `makeId`-uniqueness of the snapshot. -/
theorem run_nodup (env : RunEnv) (ordFn : List VehicleMake → List VehicleMake)
    {store : Store} (hs : (storeIds store).Nodup) :
    (storeIds (finalStore env ordFn store)).Nodup := by
  unfold finalStore startLoading
  cases henv : env.fetchAllMakes with
  | error e => simp only [henv]; exact hs
  | ok l =>
      simp only [henv]
      exact loop_nodup _ _ (saveMakes_nodup hs _ _)

/-- Claim C8: after every sync operation — the bulk shell persistence
(`_saveMakes`), a per-make type persistence (a single `insertOrUpdate`
upsert keyed on `makeId`), and a whole run — no two persisted records in
the store snapshot share the same `makeId`, provided no two did before. -/
theorem sync_uniqueness (remote store : List VehicleMake) (doc : VehicleMake)
    (ok : Bool) (env : RunEnv) (ordFn : List VehicleMake → List VehicleMake)
    (hs : (storeIds store).Nodup) :
    (storeIds (_saveMakes ok remote store).1).Nodup
    ∧ (storeIds (upsertDoc store doc)).Nodup
    ∧ (storeIds (finalStore env ordFn store)).Nodup :=
  ⟨saveMakes_nodup hs ok remote, nodup_storeIds_upsert hs doc, run_nodup env ordFn hs⟩

/-- A sample environment with every oracle succeeding. -/
def envOkW : RunEnv :=
  { fetchAllMakes := .ok [⟨"A", "Audi", some []⟩, ⟨"B", "BMW", some []⟩]
    fetchTypes := fun id => if id = "A" then some [⟨"T1", "car"⟩] else none
    bulkWriteOk := true }

/-- The identity processing order (one possible shuffle outcome). -/
def idOrd : List VehicleMake → List VehicleMake := fun l => l

theorem sync_uniqueness_witness :
    (storeIds (_saveMakes true [⟨"A", "a", some []⟩]
        [⟨"B", "b", some []⟩, ⟨"D", "d", some []⟩]).1).Nodup
    ∧ (storeIds (upsertDoc [⟨"B", "b", some []⟩, ⟨"D", "d", some []⟩]
        ⟨"B", "b", some [⟨"T1", "car"⟩]⟩)).Nodup
    ∧ (storeIds (finalStore envOkW idOrd
        [⟨"B", "b", some []⟩, ⟨"D", "d", some []⟩])).Nodup :=
  sync_uniqueness [⟨"A", "a", some []⟩] [⟨"B", "b", some []⟩, ⟨"D", "d", some []⟩]
    ⟨"B", "b", some [⟨"T1", "car"⟩]⟩ true envOkW idOrd (by decide)

theorem spreadWithTypes_types (o : Option VehicleMake) (ts : List VehicleType) :
    (spreadWithTypes o ts).vehicleTypes = some ts := by
  unfold spreadWithTypes
  cases o <;> rfl

theorem loop_map_fetch_none {fetch : String → Option (List VehicleType)} {id : String}
    (hf : fetch id = none) :
    ∀ (order : List VehicleMake) (st : TypeLoadState),
      (order.foldl (readAndSave fetch) st).makesMap id = st.makesMap id := by
  intro order
  induction order with
  | nil => intro st; rfl
  | cons mk rest ih =>
      intro st
      rw [List.foldl_cons, ih]
      unfold readAndSave
      cases hfm : fetch mk.makeId with
      | none => rfl
      | some ts =>
          simp only
          have hne : mk.makeId ≠ id := by
            intro heq
            rw [heq, hf] at hfm
            cases hfm
          rw [if_neg hne]

theorem loop_writes_mono {fetch : String → Option (List VehicleType)} :
    ∀ (order : List VehicleMake) (st : TypeLoadState) (w : VehicleMake),
      w ∈ st.writes → w ∈ (order.foldl (readAndSave fetch) st).writes := by
  intro order
  induction order with
  | nil => intro st w h; exact h
  | cons mk rest ih =>
      intro st w h
      rw [List.foldl_cons]
      refine ih _ w ?_
      unfold readAndSave
      cases fetch mk.makeId with
      | none => exact h
      | some ts => exact List.mem_append.mpr (Or.inl h)

theorem loop_write_success {fetch : String → Option (List VehicleType)} :
    ∀ (order : List VehicleMake) (st : TypeLoadState) (mk : VehicleMake)
      (ts : List VehicleType), mk ∈ order → fetch mk.makeId = some ts →
      goodFor st order →
      ∃ w ∈ (order.foldl (readAndSave fetch) st).writes,
        w.makeId = mk.makeId ∧ w.vehicleTypes = some ts := by
  intro order
  induction order with
  | nil => intro st mk ts h; cases h
  | cons h rest ih =>
      intro st mk ts hmem hf hg
      have hghead : ∃ e, st.makesMap h.makeId = some e ∧ e.makeId = h.makeId :=
        hg h (List.mem_cons_self h rest)
      have hgrest : goodFor (readAndSave fetch st h) rest :=
        readAndSave_good hghead (fun m' hm' => hg m' (List.mem_cons_of_mem h hm'))
      rw [List.foldl_cons]
      rcases List.mem_cons.mp hmem with heq | hmem'
      · subst heq
        obtain ⟨e, he, hid⟩ := hghead
        refine ⟨spreadWithTypes (st.makesMap mk.makeId) ts, ?_, ?_, spreadWithTypes_types _ ts⟩
        · refine loop_writes_mono rest _ _ ?_
          unfold readAndSave
          rw [hf]
          exact List.mem_append.mpr (Or.inr (List.mem_cons_self _ []))
        · rw [he]
          unfold spreadWithTypes
          exact hid
      · exact ih (readAndSave fetch st h) mk ts hmem' hf hgrest

/-- Every entry of the initial type-loader map is well keyed. -/
theorem goodFor_init (allMakes order : List VehicleMake) (store : Store)
    (writes : List VehicleMake) (attempted : List String)
    (hsub : ∀ m' ∈ order, m' ∈ allMakes) :
    goodFor { makesMap := arrayToMap allMakes, store := store,
              writes := writes, attempted := attempted } order := by
  intro m' hm'
  have hmem : m'.makeId ∈ allMakes.map (fun m => m.makeId) :=
    List.mem_map.mpr ⟨m', hsub m' hm', rfl⟩
  have hsome : (arrayToMap allMakes m'.makeId).isSome = true :=
    (arrayToMap_isSome_iff allMakes m'.makeId).mpr hmem
  cases he : arrayToMap allMakes m'.makeId with
  | none => rw [he] at hsome; cases hsome
  | some e => exact ⟨e, he, arrayToMap_entry_makeId he⟩

/-- Claim C5: if the type fetch for one make fails, the failure is
caught at that item's boundary and does not abort the batch — a type
fetch is attempted for every make of the cycle, every make whose fetch
succeeds is still persisted (a document with its `makeId` and its
fetched types is written), and the failed make's entry in the returned
mapping retains whatever the map already held for it. -/
theorem typeLoader_partial_failure (fetch : String → Option (List VehicleType))
    (allMakes order : List VehicleMake) (store : Store) (failed : VehicleMake)
    (hord : order.Perm allMakes)
    (_hmem : failed ∈ allMakes)
    (hf : fetch failed.makeId = none) :
    (_loadAndSaveVehicleTypes fetch allMakes order store).attempted.Perm
        (allMakes.map (fun m => m.makeId))
    ∧ (_loadAndSaveVehicleTypes fetch allMakes order store).makesMap failed.makeId
        = arrayToMap allMakes failed.makeId
    ∧ ∀ mk ∈ allMakes, ∀ ts, fetch mk.makeId = some ts →
        ∃ w ∈ (_loadAndSaveVehicleTypes fetch allMakes order store).writes,
          w.makeId = mk.makeId ∧ w.vehicleTypes = some ts := by
  unfold _loadAndSaveVehicleTypes
  refine ⟨?_, ?_, ?_⟩
  · rw [loop_attempted]
    rw [List.nil_append]
    exact hord.map (fun m => m.makeId)
  · rw [loop_map_fetch_none hf]
  · intro mk hmk ts hft
    have hmo : mk ∈ order := hord.mem_iff.mpr hmk
    exact loop_write_success order _ mk ts hmo hft
      (goodFor_init allMakes order store [] []
        (fun m' hm' => hord.mem_iff.mp hm'))

theorem typeLoader_partial_failure_witness :
    (_loadAndSaveVehicleTypes envOkW.fetchTypes
        [⟨"A", "Audi", some []⟩, ⟨"B", "BMW", some []⟩]
        [⟨"B", "BMW", some []⟩, ⟨"A", "Audi", some []⟩] []).attempted.Perm ["A", "B"]
    ∧ (_loadAndSaveVehicleTypes envOkW.fetchTypes
        [⟨"A", "Audi", some []⟩, ⟨"B", "BMW", some []⟩]
        [⟨"B", "BMW", some []⟩, ⟨"A", "Audi", some []⟩] []).makesMap "B"
        = arrayToMap [⟨"A", "Audi", some []⟩, ⟨"B", "BMW", some []⟩] "B"
    ∧ ∃ w ∈ (_loadAndSaveVehicleTypes envOkW.fetchTypes
        [⟨"A", "Audi", some []⟩, ⟨"B", "BMW", some []⟩]
        [⟨"B", "BMW", some []⟩, ⟨"A", "Audi", some []⟩] []).writes,
        w.makeId = "A" ∧ w.vehicleTypes = some [⟨"T1", "car"⟩] := by
  have h := typeLoader_partial_failure envOkW.fetchTypes
    [⟨"A", "Audi", some []⟩, ⟨"B", "BMW", some []⟩]
    [⟨"B", "BMW", some []⟩, ⟨"A", "Audi", some []⟩] []
    ⟨"B", "BMW", some []⟩
    (List.Perm.swap _ _ []) (by decide) rfl
  exact ⟨h.1, h.2.1, h.2.2 ⟨"A", "Audi", some []⟩ (by decide) [⟨"T1", "car"⟩] rfl⟩

/-! ## Claim C6: fatal errors -/

/-- An environment whose shell-persistence bulk write fails (the Mongo
facade catches the error internally and returns `[]`). -/
def envPersistFail : RunEnv :=
  { fetchAllMakes := .ok [⟨"1", "m", some []⟩]
    fetchTypes := fun _ => some [⟨"2", "t"⟩]
    bulkWriteOk := false }

/-- An environment whose makes-level fetch throws. -/
def envFetchFail : RunEnv :=
  { fetchAllMakes := .error "NetworkError"
    fetchTypes := fun _ => some []
    bulkWriteOk := true }

/-- The `makeId`s for which the run attempted a type fetch. -/
def runTypeAttempts (env : RunEnv) (ordFn : List VehicleMake → List VehicleMake)
    (store : Store) : List String :=
  match startLoading env ordFn store with
  | .ok r => r.typeLoadAttempted
  | .error _ => []

/-- Claim C6 (counterexample): a failure of the shell-persistence bulk
write does not abort the run — `MongoDBFacade.insertOrUpdateMany`
catches its own error and returns `[]`, so `startLoading` proceeds to
type loading (here it attempts and persists types for make "1") instead
of aborting, contradicting the claim that a persistence error at step 2
is fatal and that no type loading is attempted. -/
theorem startLoading_continues_after_persist_failure :
    envPersistFail.bulkWriteOk = false
    ∧ startLoading envPersistFail idOrd []
        = .ok { store := [⟨"1", "m", some [⟨"2", "t"⟩]⟩], typeLoadAttempted := ["1"] } :=
  ⟨rfl, rfl⟩

/-- Claim C6 (amended): if the makes-level fetch (step 1) fails with a
network or parse error, the run aborts — no shell persistence and no
type loading is attempted, and the store retains its prior snapshot
untouched.  A persistence failure inside the shell-persistence step is
caught by the store facade, which returns an empty result; the run does
not abort, and type loading over the whole fetched makes list still
proceeds. -/
theorem startLoading_fatal_amended (env : RunEnv)
    (ordFn : List VehicleMake → List VehicleMake) (store : Store) :
    (∀ e, env.fetchAllMakes = .error e →
      startLoading env ordFn store = .error e ∧ finalStore env ordFn store = store)
    ∧ (∀ l, env.fetchAllMakes = .ok l →
      (startLoading env ordFn store).isOk = true
      ∧ runTypeAttempts env ordFn store
          = (ordFn (_saveMakes env.bulkWriteOk l store).2).map (fun m => m.makeId)) := by
  constructor
  · intro e he
    unfold finalStore startLoading
    simp [he]
  · intro l hl
    unfold runTypeAttempts startLoading
    simp only [hl]
    refine ⟨rfl, ?_⟩
    unfold _loadAndSaveVehicleTypes
    rw [loop_attempted, List.nil_append]

theorem startLoading_fatal_amended_witness :
    (startLoading envFetchFail idOrd [⟨"A", "a", some []⟩] = .error "NetworkError"
      ∧ finalStore envFetchFail idOrd [⟨"A", "a", some []⟩] = [⟨"A", "a", some []⟩])
    ∧ ((startLoading envPersistFail idOrd []).isOk = true
      ∧ runTypeAttempts envPersistFail idOrd [] = ["1"]) :=
  ⟨(startLoading_fatal_amended envFetchFail idOrd [⟨"A", "a", some []⟩]).1 "NetworkError" rfl,
   ((startLoading_fatal_amended envPersistFail idOrd []).2 [⟨"1", "m", some []⟩] rfl).1,
   ((startLoading_fatal_amended envPersistFail idOrd []).2 [⟨"1", "m", some []⟩] rfl).2⟩

/-! ## Claim C7: idempotence of the full pipeline -/

/-- The value one full, deterministic cycle leaves in the store for a
remote make, as a function of the previously stored record: a
successful type fetch overwrites the record with the fetched types; a
failed fetch leaves the shell-phase value. -/
def cycleVal (fetch : String → Option (List VehicleType)) (old : Option VehicleMake)
    (mk : VehicleMake) : VehicleMake :=
  match fetch mk.makeId with
  | some ts => { makeId := mk.makeId, makeName := mk.makeName, vehicleTypes := some ts }
  | none => shellVal old mk

theorem mergeWith_makeName (old : Option VehicleMake) (mk : VehicleMake) :
    (mergeWith old mk).makeName = mk.makeName := by
  unfold mergeWith
  by_cases h : (typesNonempty old && typesEmpty mk) = true
  · rw [if_pos h]
  · rw [if_neg h]

theorem makesToSave_ids (f : String → Option VehicleMake) (remote : List VehicleMake) :
    (remote.map (mergeDoc f)).map (fun m => m.makeId) = remote.map (fun m => m.makeId) := by
  induction remote with
  | nil => rfl
  | cons mk rest ih => simp [ih, mergeDoc_eq_mergeWith, mergeWith_makeId]

theorem split_no_id (l₁ l₂ : List VehicleMake) (d : VehicleMake)
    (h : ((l₁ ++ d :: l₂).map (fun m => m.makeId)).Nodup) :
    (∀ m' ∈ l₁, m'.makeId ≠ d.makeId) ∧ (∀ m' ∈ l₂, m'.makeId ≠ d.makeId) := by
  rw [List.map_append, List.map_cons, List.nodup_middle, List.nodup_cons,
    List.mem_append] at h
  constructor
  · intro m' hm' heq
    exact h.1 (Or.inl (List.mem_map.mpr ⟨m', hm', heq⟩))
  · intro m' hm' heq
    exact h.1 (Or.inr (List.mem_map.mpr ⟨m', hm', heq⟩))

theorem findMake_of_mem_nodup {l : List VehicleMake}
    (h : (l.map (fun m => m.makeId)).Nodup) {d : VehicleMake} (hd : d ∈ l) :
    findMake l d.makeId = some d := by
  cases hf : findMake l d.makeId with
  | none =>
      rw [findMake_eq_none_iff] at hf
      exact absurd (List.mem_map.mpr ⟨d, hd, rfl⟩) hf
  | some e =>
      rw [eq_of_makeId_eq h (findMake_entry_mem hf) hd (findMake_entry_makeId hf)]

/-- The shell-phase value is a fixed point of a second shell phase. -/
theorem shellVal_stable (old : Option VehicleMake) (mk : VehicleMake) :
    shellVal (some (shellVal old mk)) mk = shellVal old mk := by
  obtain ⟨mid, mname, mtv⟩ := mk
  cases old with
  | none =>
      cases mtv with
      | none => simp [shellVal, mergeWith, setFields, typesNonempty, typesEmpty]
      | some l =>
          cases l with
          | nil => simp [shellVal, mergeWith, setFields, typesNonempty, typesEmpty]
          | cons a tl => simp [shellVal, mergeWith, setFields, typesNonempty, typesEmpty]
  | some dbm =>
      obtain ⟨did, dname, dtv⟩ := dbm
      cases dtv with
      | none =>
          cases mtv with
          | none => simp [shellVal, mergeWith, setFields, typesNonempty, typesEmpty]
          | some l =>
              cases l with
              | nil => simp [shellVal, mergeWith, setFields, typesNonempty, typesEmpty]
              | cons a tl => simp [shellVal, mergeWith, setFields, typesNonempty, typesEmpty]
      | some dl =>
          cases dl with
          | nil =>
              cases mtv with
              | none => simp [shellVal, mergeWith, setFields, typesNonempty, typesEmpty]
              | some l =>
                  cases l with
                  | nil => simp [shellVal, mergeWith, setFields, typesNonempty, typesEmpty]
                  | cons a tl =>
                      simp [shellVal, mergeWith, setFields, typesNonempty, typesEmpty]
          | cons b bs =>
              cases mtv with
              | none => simp [shellVal, mergeWith, setFields, typesNonempty, typesEmpty]
              | some l =>
                  cases l with
                  | nil => simp [shellVal, mergeWith, setFields, typesNonempty, typesEmpty]
                  | cons a tl =>
                      simp [shellVal, mergeWith, setFields, typesNonempty, typesEmpty]

/-- One deterministic cycle is idempotent on each record. -/
theorem cycleVal_idem (fetch : String → Option (List VehicleType))
    (old : Option VehicleMake) (mk : VehicleMake) :
    cycleVal fetch (some (cycleVal fetch old mk)) mk = cycleVal fetch old mk := by
  unfold cycleVal
  cases hf : fetch mk.makeId with
  | some ts => rfl
  | none => exact shellVal_stable old mk

theorem finalStore_ok {env : RunEnv} {remote : List VehicleMake}
    (henv : env.fetchAllMakes = .ok remote)
    (ordFn : List VehicleMake → List VehicleMake) (store : Store) :
    finalStore env ordFn store
      = (_loadAndSaveVehicleTypes env.fetchTypes
          (_saveMakes env.bulkWriteOk remote store).2
          (ordFn (_saveMakes env.bulkWriteOk remote store).2)
          (_saveMakes env.bulkWriteOk remote store).1).store := by
  unfold finalStore startLoading
  simp only [henv]

theorem run_find_not_mem {env : RunEnv} {remote : List VehicleMake}
    (henv : env.fetchAllMakes = .ok remote) (hbulk : env.bulkWriteOk = true)
    (ordFn : List VehicleMake → List VehicleMake)
    (hord : ∀ l, (ordFn l).Perm l) (store : Store) {id : String}
    (hid : id ∉ remote.map (fun m => m.makeId)) :
    findMake (finalStore env ordFn store) id = none := by
  rw [finalStore_ok henv, hbulk]
  unfold _loadAndSaveVehicleTypes
  set makes2 := (_saveMakes true remote store).2 with hmakes2
  have hids : makes2.map (fun m => m.makeId) = remote.map (fun m => m.makeId) := by
    rw [hmakes2, _saveMakes_snd]
    exact makesToSave_ids _ remote
  have hsub : ∀ m' ∈ ordFn makes2, m' ∈ makes2 :=
    fun m' hm' => (hord makes2).mem_iff.mp hm'
  have hne : ∀ m' ∈ ordFn makes2, m'.makeId ≠ id := by
    intro m' hm' heq
    apply hid
    rw [← hids]
    exact List.mem_map.mpr ⟨m', hsub m' hm', heq⟩
  obtain ⟨hfind, _⟩ := loop_untouched (ordFn makes2) _ hne
    (goodFor_init makes2 (ordFn makes2) (_saveMakes true remote store).1 [] [] hsub)
  rw [hfind]
  exact saveMakes_find_not_mem hid store

theorem run_find_mem {env : RunEnv} {remote : List VehicleMake} {mk : VehicleMake}
    (henv : env.fetchAllMakes = .ok remote) (hbulk : env.bulkWriteOk = true)
    (ordFn : List VehicleMake → List VehicleMake)
    (hord : ∀ l, (ordFn l).Perm l) (store : Store)
    (hs : (storeIds store).Nodup) (hr : (remote.map (fun m => m.makeId)).Nodup)
    (hmem : mk ∈ remote) :
    findMake (finalStore env ordFn store) mk.makeId
      = some (cycleVal env.fetchTypes (findMake store mk.makeId) mk) := by
  rw [finalStore_ok henv, hbulk]
  unfold _loadAndSaveVehicleTypes
  set doc := mergeDoc (arrayToMap store) mk with hdoc
  have hdocid : doc.makeId = mk.makeId := by
    rw [hdoc, mergeDoc_eq_mergeWith, mergeWith_makeId]
  have hdocname : doc.makeName = mk.makeName := by
    rw [hdoc, mergeDoc_eq_mergeWith, mergeWith_makeName]
  have hdmem : doc ∈ (_saveMakes true remote store).2 := by
    rw [_saveMakes_snd]
    exact List.mem_map.mpr ⟨mk, hmem, rfl⟩
  set makes2 := (_saveMakes true remote store).2 with hmakes2
  have hids : makes2.map (fun m => m.makeId) = remote.map (fun m => m.makeId) := by
    rw [hmakes2, _saveMakes_snd]
    exact makesToSave_ids _ remote
  have hnod2 : (makes2.map (fun m => m.makeId)).Nodup := by
    rw [hids]
    exact hr
  have hnodord : ((ordFn makes2).map (fun m => m.makeId)).Nodup := by
    have hp : ((ordFn makes2).map (fun m => m.makeId)).Perm
        (makes2.map (fun m => m.makeId)) := (hord makes2).map _
    exact hp.nodup_iff.mpr hnod2
  have hdord : doc ∈ ordFn makes2 := (hord makes2).mem_iff.mpr hdmem
  obtain ⟨o₁, o₂, hsplit⟩ := List.append_of_mem hdord
  have hno := split_no_id o₁ o₂ doc (by rw [← hsplit]; exact hnodord)
  have hsub : ∀ m' ∈ ordFn makes2, m' ∈ makes2 :=
    fun m' hm' => (hord makes2).mem_iff.mp hm'
  have hgood : goodFor
      { makesMap := arrayToMap makes2, store := (_saveMakes true remote store).1,
        writes := [], attempted := [] } (ordFn makes2) :=
    goodFor_init makes2 (ordFn makes2) (_saveMakes true remote store).1 [] [] hsub
  have hmap0 : arrayToMap makes2 mk.makeId = some doc := by
    rw [arrayToMap_eq_findMake hnod2, ← hdocid]
    exact findMake_of_mem_nodup hnod2 hdmem
  have hshell : findMake (_saveMakes true remote store).1 mk.makeId
      = some (shellVal (findMake store mk.makeId) mk) := saveMakes_find_mem hs hr hmem
  rw [hsplit] at hgood ⊢
  cases hft : env.fetchTypes mk.makeId with
  | none =>
      obtain ⟨hfind, _⟩ := loop_find_single_none doc o₁ o₂
        _ hno.1 hno.2 hgood (by rw [hdocid]; exact hft)
      rw [hdocid] at hfind
      rw [hfind, hshell]
      unfold cycleVal
      rw [hft]
  | some ts =>
      obtain ⟨hfind, _⟩ := loop_find_single_some doc ts o₁ o₂
        _ hno.1 hno.2 hgood (by rw [hdocid]; exact hft)
      rw [hdocid] at hfind
      rw [hfind]
      dsimp only
      rw [hmap0, hshell]
      dsimp only
      unfold cycleVal
      rw [hft]
      unfold spreadWithTypes setFields
      dsimp only
      rw [hdocid, hdocname]

/-- Claim C7: running the full pipeline twice in succession against an
unchanged (deterministic) remote source yields, for every `makeId`, the
same stored record after the second run as after the first — the store
snapshot, keyed by `makeId`, is identical. -/
theorem startLoading_idempotent (env : RunEnv)
    (ordFn : List VehicleMake → List VehicleMake) (store : Store)
    (hord : ∀ l, (ordFn l).Perm l)
    (hs : (storeIds store).Nodup)
    (hr : ∀ l, env.fetchAllMakes = .ok l → (l.map (fun m => m.makeId)).Nodup)
    (hbulk : env.bulkWriteOk = true) :
    ∀ id, findMake (finalStore env ordFn (finalStore env ordFn store)) id
        = findMake (finalStore env ordFn store) id := by
  intro id
  cases henv : env.fetchAllMakes with
  | error e =>
      have h1 : finalStore env ordFn store = store := by
        unfold finalStore startLoading
        simp [henv]
      rw [h1, h1]
  | ok remote =>
      have hrem := hr remote henv
      have hs1 : (storeIds (finalStore env ordFn store)).Nodup := run_nodup env ordFn hs
      by_cases hmem : id ∈ remote.map (fun m => m.makeId)
      · obtain ⟨mk, hmk, heq⟩ := List.mem_map.mp hmem
        subst heq
        rw [run_find_mem henv hbulk ordFn hord (finalStore env ordFn store) hs1 hrem hmk]
        rw [run_find_mem henv hbulk ordFn hord store hs hrem hmk]
        rw [cycleVal_idem]
      · rw [run_find_not_mem henv hbulk ordFn hord (finalStore env ordFn store) hmem,
          run_find_not_mem henv hbulk ordFn hord store hmem]

theorem startLoading_idempotent_witness :
    findMake (finalStore envOkW idOrd (finalStore envOkW idOrd [⟨"D", "d", some []⟩])) "A"
      = findMake (finalStore envOkW idOrd [⟨"D", "d", some []⟩]) "A" :=
  startLoading_idempotent envOkW idOrd [⟨"D", "d", some []⟩]
    (fun l => List.Perm.refl l) (by decide)
    (fun l hl => by
      have h : [⟨"A", "Audi", some []⟩, ⟨"B", "BMW", some []⟩] = l := Except.ok.inj hl
      rw [← h]
      decide) rfl "A"

end Bimm
